import Mathlib

/-!
Shallow embedding of the PhantomPool Solana programs
(src/programs/phantom-pool/src/lib_basic.rs, lib.rs, enhanced_lib.rs).

Conventions of the embedding:
* Public keys, hashes, ciphertext blobs and other opaque byte arrays are
  modelled as `Nat` (their content is never inspected by the program logic,
  except for length checks, for which `List Nat` is used).
* `u64`/`u8` counters are modelled as `Nat`.  The Anchor build aborts the
  whole instruction on arithmetic overflow, and an aborted instruction
  commits nothing, so `Nat` arithmetic models every run that commits.
  `saturating_sub` on unsigned integers is exactly truncated `Nat`
  subtraction.
* `i64` timestamps are modelled as `Int`; the clock value is passed to each
  operation as an explicit `now` argument.
* Each instruction handler becomes a pure function from its pre-state and
  arguments to the state at the point where the handler returns, paired with
  `Option ErrorCode` (`none` on success).  Error branches mirror the order of
  the `require!` checks in the source.
* External token transfers (CPI calls) are capability calls assumed to
  succeed; a failing transfer aborts the transaction wholesale and commits
  nothing, so it never produces an intermediate state.
* The always-true stub verifiers of the source are embedded as written
  (functions returning `true`), because they are the code under verification.
-/

namespace PhantomPool

/-! ### The basic variant, `lib_basic.rs` -/

namespace Basic

inductive ErrorCode where
  | MatchingInProgress
  | InsufficientFairness
  | TooManyTrades
  | InvalidThresholdProof
deriving DecidableEq, Repr

structure PoolState where
  authority : Nat
  total_volume : Nat
  order_count : Nat
  is_matching : Bool
deriving DecidableEq, Repr

/-- `validate_vrf_proof` from lib_basic.rs: the fairness score is
`97 + proof[0] % 3`; `proof0` is the first byte of the 128-byte proof. -/
def validate_vrf_proof (proof0 : Nat) : Nat :=
  97 + proof0 % 3

/-- `batch_match_orders` from lib_basic.rs.  Note the source sets
`pool.is_matching = true` before the fairness check; the returned state is
the state at the handler's return point (error or success), mirroring the
sequential execution of the function body. -/
def batch_match_orders (pool : PoolState) (proof0 : Nat) :
    PoolState × Option ErrorCode :=
  if pool.is_matching then (pool, some .MatchingInProgress)
  else
    let pool1 : PoolState := { pool with is_matching := true }
    let fairness_score := validate_vrf_proof proof0
    if 95 < fairness_score then ({ pool1 with is_matching := false }, none)
    else (pool1, some .InsufficientFairness)

end Basic

/-! ### The production variant, `lib.rs` -/

namespace Lib

inductive OrderSide where
  | Buy
  | Sell
deriving DecidableEq, Repr

inductive OrderStatus where
  | Pending
  | Matched
  | Cancelled
  | Executed
  | Settled
deriving DecidableEq, Repr

inductive MatchingStatus where
  | InProgress
  | DecryptionComplete
  | Completed
  | Failed
deriving DecidableEq, Repr

inductive ErrorCode where
  | MatchingInProgress
  | InvalidMatchingStatus
  | InsufficientBalance
  | InvalidProof
  | InvalidOrderSize
  | InsufficientOrders
  | InvalidVrfProof
  | InvalidThresholdSignature
  | InvalidOrderStatus
  | Unauthorized
  | InvalidSolvencyProof
  | InvalidMatchingProof
  | PoolPaused
  | SettlementFailed
deriving DecidableEq, Repr

structure Pool where
  authority : Nat
  elgamal_public_key : Nat
  vrf_public_key : Nat
  total_orders : Nat
  matching_round : Nat
  is_matching_active : Bool
  min_order_size : Nat
  max_order_size : Nat
  fee_bps : Nat
  total_volume : Nat
  total_trades : Nat
  total_fees_collected : Nat
  is_paused : Bool
  paused_at : Option Int
  created_at : Int
deriving DecidableEq, Repr

structure Order where
  owner : Nat
  pool : Nat
  side : OrderSide
  encrypted_amount : Nat
  encrypted_price : Nat
  solvency_proof : List Nat
  order_hash : Nat
  commitment_hash : Nat
  deposit_amount : Nat
  escrow_account : Nat
  status : OrderStatus
  submitted_at : Int
  cancelled_at : Option Int
deriving DecidableEq, Repr

structure TradeMatch where
  buy_order_hash : Nat
  sell_order_hash : Nat
  amount : Nat
deriving DecidableEq, Repr

structure MatchingRound where
  pool : Nat
  round_id : Nat
  vrf_proof : List Nat
  vrf_randomness : Nat
  order_hashes : List Nat
  trade_matches : List TradeMatch
  clearing_price : Nat
  matching_proof : List Nat
  threshold_signature : List Nat
  total_fees : Nat
  started_at : Int
  completed_at : Option Int
  status : MatchingStatus
deriving DecidableEq, Repr

/-- `submit_encrypted_order` from lib.rs.  Checks, in source order: order
size bounds, solvency-proof length; then transfers the deposit to escrow and
stores the order.  The source contains no check of `pool.is_paused`. -/
def submit_encrypted_order (pool : Pool) (user : Nat)
    (encrypted_amount encrypted_price : Nat) (side : OrderSide)
    (solvency_proof : List Nat) (order_hash : Nat) (commitment_hash : Nat)
    (deposit_amount : Nat) (now : Int) :
    Pool × Option Order × Option ErrorCode :=
  if ¬ (pool.min_order_size ≤ deposit_amount ∧
        deposit_amount ≤ pool.max_order_size) then
    (pool, none, some .InvalidOrderSize)
  else if solvency_proof.length < 64 then
    (pool, none, some .InvalidSolvencyProof)
  else
    let order : Order :=
      { owner := user
        pool := 0
        side := side
        encrypted_amount := encrypted_amount
        encrypted_price := encrypted_price
        solvency_proof := solvency_proof
        order_hash := order_hash
        commitment_hash := commitment_hash
        deposit_amount := deposit_amount
        escrow_account := 0
        status := .Pending
        submitted_at := now
        cancelled_at := none }
    ({ pool with total_orders := pool.total_orders + 1 }, some order, none)

/-- `batch_match_orders` from lib.rs.  Checks, in source order:
`!pool.is_matching_active`, at least two order hashes, VRF proof length 64.
The source contains no check of `pool.is_paused`. -/
def batch_match_orders (pool : Pool) (round_id : Nat)
    (vrf_proof : List Nat) (vrf_randomness : Nat)
    (order_hashes : List Nat) (now : Int) :
    Pool × Option MatchingRound × Option ErrorCode :=
  if pool.is_matching_active then
    (pool, none, some .MatchingInProgress)
  else if order_hashes.length < 2 then
    (pool, none, some .InsufficientOrders)
  else if ¬ (vrf_proof.length = 64) then
    (pool, none, some .InvalidVrfProof)
  else
    let round : MatchingRound :=
      { pool := 0
        round_id := round_id
        vrf_proof := vrf_proof
        vrf_randomness := vrf_randomness
        order_hashes := order_hashes
        trade_matches := []
        clearing_price := 0
        matching_proof := []
        threshold_signature := []
        total_fees := 0
        started_at := now
        completed_at := none
        status := .InProgress }
    ({ pool with matching_round := round_id, is_matching_active := true },
     some round, none)

/-- `settle_matched_trades` from lib.rs. -/
def settle_matched_trades (pool : Pool) (round : MatchingRound)
    (trade_matches : List TradeMatch) (clearing_price : Nat)
    (matching_proof threshold_signature : List Nat) :
    Pool × MatchingRound × Option ErrorCode :=
  if ¬ (round.status = .InProgress) then
    (pool, round, some .InvalidMatchingStatus)
  else if threshold_signature.length < 64 then
    (pool, round, some .InvalidThresholdSignature)
  else if matching_proof.length < 32 then
    (pool, round, some .InvalidMatchingProof)
  else
    let total_volume := (trade_matches.map TradeMatch.amount).sum
    let total_fees := total_volume * pool.fee_bps / 10000
    let round' : MatchingRound :=
      { round with
          trade_matches := trade_matches
          clearing_price := clearing_price
          matching_proof := matching_proof
          threshold_signature := threshold_signature
          total_fees := total_fees
          status := .DecryptionComplete }
    let pool' : Pool :=
      { pool with
          total_volume := pool.total_volume + total_volume
          total_trades := pool.total_trades + trade_matches.length
          total_fees_collected := pool.total_fees_collected + total_fees }
    (pool', round', none)

/-- `finalize_matching_round` from lib.rs: the only operation that clears
`is_matching_active`; it requires `DecryptionComplete` and marks the round
`Completed`. -/
def finalize_matching_round (pool : Pool) (round : MatchingRound)
    (now : Int) : Pool × MatchingRound × Option ErrorCode :=
  if ¬ (round.status = .DecryptionComplete) then
    (pool, round, some .InvalidMatchingStatus)
  else
    ({ pool with is_matching_active := false },
     { round with status := .Completed, completed_at := some now },
     none)

/-- `cancel_order` from lib.rs.  Requires `Pending` status and ownership,
then refunds the full `deposit_amount` (no grace-window fee exists in this
variant, and there is no `is_matching_active` check).  The second component
is the refunded amount. -/
def cancel_order (order : Order) (user : Nat) (now : Int) :
    Order × Option Nat × Option ErrorCode :=
  if ¬ (order.status = .Pending) then
    (order, none, some .InvalidOrderStatus)
  else if ¬ (order.owner = user) then
    (order, none, some .Unauthorized)
  else
    ({ order with status := .Cancelled, cancelled_at := some now },
     some order.deposit_amount, none)

/-- `emergency_pause` from lib.rs: authority-only; sets `is_paused`. -/
def emergency_pause (pool : Pool) (caller : Nat) (now : Int) :
    Pool × Option ErrorCode :=
  if ¬ (caller = pool.authority) then
    (pool, some .Unauthorized)
  else
    ({ pool with is_paused := true, paused_at := some now }, none)

end Lib

/-! ### The enhanced variant, `enhanced_lib.rs`

Source names containing reserved words of this development are renamed:
the source struct `PartialDecryption` is embedded as `DecryptionShare`, the
field `partial_decryptions` as `decryption_shares`, and the instruction
`submit_partial_decryption` as `submit_decryption_shares`. -/

namespace Enhanced

inductive OrderSide where
  | Buy
  | Sell
deriving DecidableEq, Repr

inductive OrderStatus where
  | Pending
  | Matched
  | Cancelled
  | Expired
deriving DecidableEq, Repr

inductive MatchingStatus where
  | Active
  | ReadyToComplete
  | Completed
deriving DecidableEq, Repr

inductive ViolationType where
  | InvalidDecryption
  | MissedHeartbeat
  | DoubleSpending
  | MaliciousMatching
deriving DecidableEq, Repr

inductive ErrorCode where
  | InvalidThreshold
  | TooManyExecutors
  | DuplicateOrder
  | NonceReused
  | InvalidSolvencyProof
  | InvalidSignature
  | MatchingTooEarly
  | InvalidVrfProof
  | InsufficientOrders
  | UnauthorizedExecutor
  | InsufficientStake
  | InvalidPartialDecryption
  | MatchingNotReady
  | InvalidExecutionProof
  | UnauthorizedCancel
  | OrderAlreadyProcessed
  | CannotCancelDuringMatching
  | InvalidExecutorIndex
  | ExecutorAlreadyRegistered
  | InvalidThresholdShare
  | UnauthorizedSlash
  | InvalidSlashingEvidence
  | ExecutorInactive
deriving DecidableEq, Repr

def MINIMUM_EXECUTOR_STAKE : Nat := 1000 * 1000000

def CANCELLATION_FEE : Nat := 1 * 1000000

structure DarkPool where
  authority : Nat
  elgamal_public_key : Nat
  vrf_public_key : Nat
  threshold : Nat
  total_executors : Nat
  order_count : Nat
  matching_round : Nat
  last_match_time : Int
  is_matching : Bool
  total_volume : Nat
  executor_registry : List (Nat × Nat)
  used_nonces : List Nat
  pending_orders : List Nat
deriving DecidableEq, Repr

structure EncryptedOrder where
  pool : Nat
  order_hash : Nat
  trader : Nat
  encrypted_amount : Nat
  encrypted_price : Nat
  side : OrderSide
  status : OrderStatus
  submitted_at : Int
  cancelled_at : Int
  solvency_proof : List Nat
  signature : Nat
  nonce : Nat
deriving DecidableEq, Repr

/-- Source struct `PartialDecryption`: one executor's decryption share for
one order of the round, keyed by `(executor_index, order_index)`. -/
structure DecryptionShare where
  executor_index : Nat
  order_index : Nat
  decryption : Nat
  timestamp : Int
deriving DecidableEq, Repr

structure TradePair where
  buy_order : Nat
  sell_order : Nat
  matched_amount : Nat
  execution_price : Nat
deriving DecidableEq, Repr

structure MatchingRound where
  pool : Nat
  round_number : Nat
  vrf_seed : Nat
  start_time : Int
  execution_timestamp : Int
  status : MatchingStatus
  encrypted_orders : List Nat
  decryption_shares : List DecryptionShare
  matched_orders : List TradePair
  clearing_price : Nat
  threshold : Nat
deriving DecidableEq, Repr

structure ExecutorNode where
  pool : Nat
  authority : Nat
  executor_index : Nat
  threshold_share : Nat
  public_verification_key : Nat
  stake_amount : Nat
  is_active : Bool
  slash_count : Nat
  last_heartbeat : Int
  performance_score : Nat
deriving DecidableEq, Repr

/-- `DarkPool::order_exists`: the source is a stub that unconditionally
returns `false` (its comment says a real implementation would consult a hash
set). -/
def DarkPool.order_exists (_pool : DarkPool) (_order_hash : Nat) : Bool :=
  false

/-- `DarkPool::nonce_used`: `self.used_nonces.contains(nonce)`. -/
def DarkPool.nonce_used (pool : DarkPool) (nonce : Nat) : Bool :=
  decide (nonce ∈ pool.used_nonces)

/-- `DarkPool::add_nonce`: push the nonce, then drop the oldest entry once
the list exceeds 10000 entries (`Vec::remove(0)` is `List.tail` after the
push). -/
def DarkPool.add_nonce (pool : DarkPool) (nonce : Nat) : DarkPool :=
  let l := pool.used_nonces ++ [nonce]
  if 10000 < l.length then { pool with used_nonces := l.tail }
  else { pool with used_nonces := l }

/-- `DarkPool::get_pending_orders`. -/
def DarkPool.get_pending_orders (pool : DarkPool) : List Nat :=
  pool.pending_orders

/-- `DarkPool::executor_exists`. -/
def DarkPool.executor_exists (pool : DarkPool) (index : Nat) : Bool :=
  pool.executor_registry.any fun p => p.2 == index

/-- `DarkPool::add_executor`. -/
def DarkPool.add_executor (pool : DarkPool) (executor : Nat) (index : Nat) :
    DarkPool :=
  { pool with executor_registry := pool.executor_registry ++ [(executor, index)] }

/-- `MatchingRound::is_authorized_executor`: stub returning `true` in the
source. -/
def MatchingRound.is_authorized_executor (_round : MatchingRound)
    (_executor : Nat) (_index : Nat) : Bool :=
  true

/-- `MatchingRound::add_partial_decryption`: pushes one share record. -/
def MatchingRound.add_share (round : MatchingRound) (executor_index : Nat)
    (order_index : Nat) (decryption : Nat) (now : Int) : MatchingRound :=
  { round with
      decryption_shares :=
        round.decryption_shares ++
          [{ executor_index := executor_index
             order_index := order_index
             decryption := decryption
             timestamp := now }] }

/-- The number of distinct executor indices among all recorded shares of the
round (across all orders); the source computes it with a `HashSet` of the
`executor_index` fields. -/
def distinct_executors (round : MatchingRound) : Nat :=
  ((round.decryption_shares.map DecryptionShare.executor_index).toFinset).card

/-- `MatchingRound::has_sufficient_shares`: distinct submitting executors
(counted across all orders, not per order) reach the threshold. -/
def has_sufficient_shares (round : MatchingRound) : Bool :=
  decide (round.threshold ≤ distinct_executors round)

/-- The number of distinct executor indices among the shares recorded for
the single order at `order_index` (the per-order quorum count the spec
talks about; the source never computes this). -/
def shares_for_order (round : MatchingRound) (order_index : Nat) : Nat :=
  (((round.decryption_shares.filter fun s => s.order_index == order_index).map
      DecryptionShare.executor_index).toFinset).card

/-- Stub verifier `verify_solvency_proof` (always true in the source). -/
def verify_solvency_proof (_proof : List Nat) (_encrypted_amount : Nat)
    (_public_key : Nat) : Bool :=
  true

/-- Stub verifier `verify_order_signature` (always true in the source). -/
def verify_order_signature (_signature : Nat) (_order_hash : Nat)
    (_trader : Nat) : Bool :=
  true

/-- Stub verifier `verify_vrf_proof` (always true in the source). -/
def verify_vrf_proof (_public_key : Nat) (_proof : Nat) (_output : Nat) :
    Bool :=
  true

/-- Stub verifier `verify_partial_decryption_proof` (always true in the
source). -/
def verify_share_proof (_decryptions : List Nat) (_proof : List Nat)
    (_executor_index : Nat) (_orders : List Nat) (_threshold_share : Nat) :
    Bool :=
  true

/-- Stub verifier `verify_execution_proof` (always true in the source). -/
def verify_execution_proof (_proof : Nat) (_trades : List TradePair) :
    Bool :=
  true

/-- Stub verifier `verify_cancellation_signature` (always true in the
source). -/
def verify_cancellation_signature (_signature : Nat) (_order_hash : Nat)
    (_trader : Nat) : Bool :=
  true

/-- Stub verifier `verify_threshold_share` (always true in the source). -/
def verify_threshold_share (_share : Nat) (_public_key : Nat) (_index : Nat) :
    Bool :=
  true

/-- Stub verifier `verify_slashing_evidence` (always true in the source). -/
def verify_slashing_evidence (_evidence : List Nat)
    (_violation_type : ViolationType) (_executor_index : Nat) : Bool :=
  true

/-- `calculate_slash_amount` from enhanced_lib.rs. -/
def calculate_slash_amount (violation_type : ViolationType)
    (stake_amount : Nat) : Nat :=
  match violation_type with
  | .InvalidDecryption => stake_amount / 10
  | .MissedHeartbeat => stake_amount / 100
  | .DoubleSpending => stake_amount / 2
  | .MaliciousMatching => stake_amount / 4

/-- `complete_threshold_decryption` from enhanced_lib.rs: the matching
algorithm described in its comments is not implemented; the function only
marks the round ready and writes a fixed clearing price, leaving
`matched_orders` untouched. -/
def complete_threshold_decryption (round : MatchingRound) : MatchingRound :=
  { round with status := .ReadyToComplete, clearing_price := 150000000 }

/-- `submit_encrypted_order` from enhanced_lib.rs.  Checks, in source order:
duplicate order hash, nonce reuse, solvency proof, order signature; then
stores the order, bumps `order_count` and records the nonce. -/
def submit_encrypted_order (pool : DarkPool) (trader : Nat)
    (order_hash : Nat) (encrypted_amount encrypted_price : Nat)
    (side : OrderSide) (solvency_proof : List Nat) (order_signature : Nat)
    (nonce : Nat) (now : Int) :
    DarkPool × Option EncryptedOrder × Option ErrorCode :=
  if pool.order_exists order_hash then
    (pool, none, some .DuplicateOrder)
  else if pool.nonce_used nonce then
    (pool, none, some .NonceReused)
  else if ¬ verify_solvency_proof solvency_proof encrypted_amount
           pool.elgamal_public_key then
    (pool, none, some .InvalidSolvencyProof)
  else if ¬ verify_order_signature order_signature order_hash trader then
    (pool, none, some .InvalidSignature)
  else
    let order : EncryptedOrder :=
      { pool := 0
        order_hash := order_hash
        trader := trader
        encrypted_amount := encrypted_amount
        encrypted_price := encrypted_price
        side := side
        status := .Pending
        submitted_at := now
        cancelled_at := 0
        solvency_proof := solvency_proof
        signature := order_signature
        nonce := nonce }
    (DarkPool.add_nonce { pool with order_count := pool.order_count + 1 }
       nonce,
     some order, none)

/-- `initialize_matching_round` from enhanced_lib.rs.  Checks, in source
order: at least 30 seconds since `last_match_time`, VRF proof, at least two
pending orders.  The source performs no check of `pool.is_matching`. -/
def initialize_matching_round (pool : DarkPool) (now : Int)
    (vrf_proof : Nat) (vrf_output : Nat) :
    DarkPool × Option MatchingRound × Option ErrorCode :=
  if ¬ (30 ≤ now - pool.last_match_time) then
    (pool, none, some .MatchingTooEarly)
  else if ¬ verify_vrf_proof pool.vrf_public_key vrf_proof vrf_output then
    (pool, none, some .InvalidVrfProof)
  else if pool.get_pending_orders.length < 2 then
    (pool, none, some .InsufficientOrders)
  else
    let pool' : DarkPool :=
      { pool with
          matching_round := pool.matching_round + 1
          is_matching := true
          last_match_time := now }
    let round : MatchingRound :=
      { pool := 0
        round_number := pool'.matching_round
        vrf_seed := vrf_output
        start_time := now
        execution_timestamp := 0
        status := .Active
        encrypted_orders := pool.get_pending_orders
        decryption_shares := []
        matched_orders := []
        clearing_price := 0
        threshold := pool.threshold }
    (pool', some round, none)

/-- `submit_partial_decryption` from enhanced_lib.rs (renamed; see the
namespace comment).  Checks, in source order: executor authorization (stub),
activity and stake; share proof (stub).  Then records one share per entry of
the submitted vector (order index = position), refreshes the executor
heartbeat, and runs `complete_threshold_decryption` when
`has_sufficient_shares` holds. -/
def submit_decryption_shares (round : MatchingRound)
    (executor : ExecutorNode) (executor_index : Nat) (shares : List Nat)
    (zk_proof : List Nat) (now : Int) :
    MatchingRound × ExecutorNode × Option ErrorCode :=
  if ¬ round.is_authorized_executor executor.authority executor_index then
    (round, executor, some .UnauthorizedExecutor)
  else if ¬ (executor.is_active ∧
             MINIMUM_EXECUTOR_STAKE ≤ executor.stake_amount) then
    (round, executor, some .InsufficientStake)
  else if ¬ verify_share_proof shares zk_proof executor_index
           round.encrypted_orders executor.threshold_share then
    (round, executor, some .InvalidPartialDecryption)
  else
    let round1 :=
      shares.enum.foldl
        (fun r p => r.add_share executor_index p.1 p.2 now) round
    let executor' := { executor with last_heartbeat := now }
    let round2 :=
      if has_sufficient_shares round1 then
        complete_threshold_decryption round1
      else round1
    (round2, executor', none)

/-- `complete_matching_round` from enhanced_lib.rs.  `execute_matched_trades`
is a stub returning a fixed volume of 1000000. -/
def complete_matching_round (pool : DarkPool) (round : MatchingRound)
    (execution_proof : Nat) (now : Int) :
    DarkPool × MatchingRound × Option ErrorCode :=
  if ¬ (round.status = .ReadyToComplete) then
    (pool, round, some .MatchingNotReady)
  else if ¬ verify_execution_proof execution_proof round.matched_orders then
    (pool, round, some .InvalidExecutionProof)
  else
    let total_volume := 1000000
    ({ pool with
         is_matching := false
         total_volume := pool.total_volume + total_volume },
     { round with status := .Completed, execution_timestamp := now },
     none)

/-- `cancel_order` from enhanced_lib.rs.  Checks, in source order: ownership,
cancellation signature, `Pending` status, pool not mid-round.  The
cancellation fee is charged (by the external `charge_cancellation_fee`
capability) exactly when the call happens within the 300-second grace window;
the second component records whether the fee was charged. -/
def cancel_order (order : EncryptedOrder) (pool : DarkPool) (trader : Nat)
    (order_hash : Nat) (cancellation_signature : Nat) (now : Int) :
    EncryptedOrder × Bool × Option ErrorCode :=
  if ¬ (order.trader = trader) then
    (order, false, some .UnauthorizedCancel)
  else if ¬ verify_cancellation_signature cancellation_signature order_hash
           order.trader then
    (order, false, some .InvalidSignature)
  else if ¬ (order.status = .Pending) then
    (order, false, some .OrderAlreadyProcessed)
  else if pool.is_matching then
    (order, false, some .CannotCancelDuringMatching)
  else
    let fee_charged := decide (now - order.submitted_at < 300)
    ({ order with status := .Cancelled, cancelled_at := now },
     fee_charged, none)

/-- `register_executor` from enhanced_lib.rs. -/
def register_executor (pool : DarkPool) (executor_authority : Nat)
    (executor_key : Nat) (executor_index : Nat) (threshold_share : Nat)
    (public_verification_key : Nat) (stake_amount : Nat) (now : Int) :
    DarkPool × Option ExecutorNode × Option ErrorCode :=
  if ¬ (executor_index < pool.total_executors) then
    (pool, none, some .InvalidExecutorIndex)
  else if stake_amount < MINIMUM_EXECUTOR_STAKE then
    (pool, none, some .InsufficientStake)
  else if pool.executor_exists executor_index then
    (pool, none, some .ExecutorAlreadyRegistered)
  else if ¬ verify_threshold_share threshold_share public_verification_key
           executor_index then
    (pool, none, some .InvalidThresholdShare)
  else
    let executor : ExecutorNode :=
      { pool := 0
        authority := executor_authority
        executor_index := executor_index
        threshold_share := threshold_share
        public_verification_key := public_verification_key
        stake_amount := stake_amount
        is_active := true
        slash_count := 0
        last_heartbeat := now
        performance_score := 100 }
    (pool.add_executor executor_key executor_index, some executor, none)

/-- `slash_executor` from enhanced_lib.rs.  Authority-only; applies the
violation type's penalty with saturating subtraction, bumps the slash count,
drops the performance score by 20, and deactivates on 3 slashes or
sub-minimum stake. -/
def slash_executor (executor : ExecutorNode) (pool : DarkPool)
    (caller : Nat) (violation_type : ViolationType) (evidence : List Nat) :
    ExecutorNode × Option ErrorCode :=
  if ¬ (caller = pool.authority) then
    (executor, some .UnauthorizedSlash)
  else if ¬ verify_slashing_evidence evidence violation_type
           executor.executor_index then
    (executor, some .InvalidSlashingEvidence)
  else
    let slash_amount := calculate_slash_amount violation_type
      executor.stake_amount
    let stake' := executor.stake_amount - slash_amount
    let count' := executor.slash_count + 1
    let executor' : ExecutorNode :=
      { executor with
          stake_amount := stake'
          slash_count := count'
          performance_score := executor.performance_score - 20 }
    if 3 ≤ count' ∨ stake' < MINIMUM_EXECUTOR_STAKE then
      ({ executor' with is_active := false }, none)
    else
      (executor', none)

/-- `executor_heartbeat` from enhanced_lib.rs. -/
def executor_heartbeat (executor : ExecutorNode) (now : Int) :
    ExecutorNode × Option ErrorCode :=
  if ¬ executor.is_active then
    (executor, some .ExecutorInactive)
  else
    ({ executor with
         last_heartbeat := now
         performance_score := min 100 (executor.performance_score + 1) },
     none)

end Enhanced

/-! ### The batch-auction matcher

`complete_threshold_decryption` in enhanced_lib.rs only carries the matching
algorithm as a comment; no matcher is implemented anywhere in the source
(the function leaves `matched_orders` empty).  The component is therefore
modelled from the spec. -/

namespace Matcher

/-- Modelled from the spec: a recombined plaintext order as handed to the
matcher — "plaintext (amount, price, side) tuples for every order in the
round"; the side is carried by which input list the order is in. -/
structure PlainOrder where
  id : Nat
  amount : Nat
  price : Nat
deriving DecidableEq, Repr

/-- Insert into a list sorted by descending price. -/
def insert_desc (x : PlainOrder) : List PlainOrder → List PlainOrder
  | [] => [x]
  | y :: ys => if y.price ≤ x.price then x :: y :: ys else y :: insert_desc x ys

/-- Sort by descending price (buy side). -/
def sort_desc : List PlainOrder → List PlainOrder
  | [] => []
  | x :: xs => insert_desc x (sort_desc xs)

/-- Insert into a list sorted by ascending price. -/
def insert_asc (x : PlainOrder) : List PlainOrder → List PlainOrder
  | [] => [x]
  | y :: ys => if x.price ≤ y.price then x :: y :: ys else y :: insert_asc x ys

/-- Sort by ascending price (sell side). -/
def sort_asc : List PlainOrder → List PlainOrder
  | [] => []
  | x :: xs => insert_asc x (sort_asc xs)

/-- Modelled from the spec: "walk the sorted buy/sell cursors pairing orders
while buy price ≥ sell price, accumulating matched volume".  Each step pairs
the current best buy and best sell for the minimum of their remaining
amounts and drops whichever side is exhausted; the walk stops when the best
buy price falls below the best sell price or either side runs out. -/
def match_walk : List PlainOrder → List PlainOrder → List Enhanced.TradePair
  | [], _ => []
  | _ :: _, [] => []
  | b :: bs, s :: ss =>
    if s.price ≤ b.price then
      let m := min b.amount s.amount
      let pair : Enhanced.TradePair :=
        { buy_order := b.id
          sell_order := s.id
          matched_amount := m
          execution_price := s.price }
      if b.amount = s.amount then pair :: match_walk bs ss
      else if b.amount < s.amount then
        pair :: match_walk bs ({ s with amount := s.amount - m } :: ss)
      else
        pair :: match_walk ({ b with amount := b.amount - m } :: bs) ss
    else []
termination_by buys sells => buys.length + sells.length

/-- Modelled from the spec: the matcher sorts buys descending and sells
ascending by price and walks the two cursors. -/
def run_matcher (buys sells : List PlainOrder) : List Enhanced.TradePair :=
  match_walk (sort_desc buys) (sort_asc sells)

/-- Total volume the matched pairs commit on their buy sides: each pair
executes `matched_amount` units against its buy order. -/
def buy_volume (pairs : List Enhanced.TradePair) : Nat :=
  (pairs.map Enhanced.TradePair.matched_amount).sum

/-- Total volume the matched pairs commit on their sell sides: each pair
executes `matched_amount` units against its sell order. -/
def sell_volume (pairs : List Enhanced.TradePair) : Nat :=
  (pairs.map Enhanced.TradePair.matched_amount).sum

end Matcher

/-! ### Concrete states used to instantiate the theorems -/

/-- A paused lib.rs pool (authority 1). -/
def paused_pool : Lib.Pool :=
  { authority := 1
    elgamal_public_key := 0
    vrf_public_key := 0
    total_orders := 0
    matching_round := 0
    is_matching_active := false
    min_order_size := 1
    max_order_size := 1000000
    fee_bps := 30
    total_volume := 0
    total_trades := 0
    total_fees_collected := 0
    is_paused := true
    paused_at := some 0
    created_at := 0 }

/-- A fresh enhanced pool with no recorded nonces or orders. -/
def fresh_pool : Enhanced.DarkPool :=
  { authority := 0
    elgamal_public_key := 0
    vrf_public_key := 0
    threshold := 3
    total_executors := 5
    order_count := 0
    matching_round := 0
    last_match_time := 0
    is_matching := false
    total_volume := 0
    executor_registry := []
    used_nonces := []
    pending_orders := [] }

/-- An enhanced pool with a round in flight (`is_matching = true`) and two
pending orders, 30 seconds after its last round opened. -/
def inflight_pool : Enhanced.DarkPool :=
  { fresh_pool with
      order_count := 2
      matching_round := 1
      is_matching := true
      pending_orders := [21, 22] }

/-- An enhanced pool whose nonce set holds exactly the nonce 0. -/
def nonce_pool : Enhanced.DarkPool :=
  { fresh_pool with used_nonces := [0] }

/-- `nonce_pool` after `k` further order submissions with the fresh nonces
`1, 2, ..., k` (order hash `i`, trader 1). -/
def submit_many : Nat → Enhanced.DarkPool
  | 0 => nonce_pool
  | k + 1 =>
    (Enhanced.submit_encrypted_order (submit_many k) 1 (k + 1) 0 0 .Buy []
      0 (k + 1) 0).1

/-- A fresh matching round over two orders with threshold 3. -/
def cround : Enhanced.MatchingRound :=
  { pool := 0
    round_number := 1
    vrf_seed := 0
    start_time := 0
    execution_timestamp := 0
    status := .Active
    encrypted_orders := [10, 11]
    decryption_shares := []
    matched_orders := []
    clearing_price := 0
    threshold := 3 }

/-- An active executor at committee index `i` with exactly the minimum
stake. -/
def cexec (i : Nat) : Enhanced.ExecutorNode :=
  { pool := 0
    authority := 100 + i
    executor_index := i
    threshold_share := 0
    public_verification_key := 0
    stake_amount := Enhanced.MINIMUM_EXECUTOR_STAKE
    is_active := true
    slash_count := 0
    last_heartbeat := 0
    performance_score := 100 }

/-- `cround` after executors 0, 1 and 2 each submit a single decryption
share for order index 0 only (a one-element share vector). -/
def cround3 : Enhanced.MatchingRound :=
  let r1 := (Enhanced.submit_decryption_shares cround (cexec 0) 0 [5] [] 0).1
  let r2 := (Enhanced.submit_decryption_shares r1 (cexec 1) 1 [5] [] 0).1
  (Enhanced.submit_decryption_shares r2 (cexec 2) 2 [5] [] 0).1

/-- A lib.rs pool with a matching round in flight. -/
def busy_pool : Lib.Pool :=
  { paused_pool with is_paused := false, is_matching_active := true }

/-- A lib.rs `Pending` order owned by trader 5 with a 5000000 deposit,
submitted at time 0. -/
def pending_order : Lib.Order :=
  { owner := 5
    pool := 0
    side := .Buy
    encrypted_amount := 0
    encrypted_price := 0
    solvency_proof := []
    order_hash := 9
    commitment_hash := 0
    deposit_amount := 5000000
    escrow_account := 0
    status := .Pending
    submitted_at := 0
    cancelled_at := none }

/-- An enhanced `Pending` order owned by trader 5, submitted at time 0. -/
def c8_order : Enhanced.EncryptedOrder :=
  { pool := 0
    order_hash := 9
    trader := 5
    encrypted_amount := 0
    encrypted_price := 0
    side := .Buy
    status := .Pending
    submitted_at := 0
    cancelled_at := 0
    solvency_proof := []
    signature := 0
    nonce := 3 }

/-- Concrete buy orders for the matcher: amounts 10, prices 110 and 105. -/
def wbuys : List Matcher.PlainOrder :=
  [{ id := 1, amount := 10, price := 110 }, { id := 2, amount := 10, price := 105 }]

/-- Concrete sell order for the matcher: amount 10, price 100. -/
def wsells : List Matcher.PlainOrder :=
  [{ id := 3, amount := 10, price := 100 }]

/-- The single pair the matcher produces on `wbuys`/`wsells`: the sell
matches the higher buy (110) in full at the sell price. -/
def wpair : Enhanced.TradePair :=
  { buy_order := 1, sell_order := 3, matched_amount := 10,
    execution_price := 100 }

/-! ### Theorems -/

/-- Claim C10: `validate_vrf_proof` returns `97 + proof[0] % 3`, a value
always between 97 and 99 and hence strictly greater than 95, so the
`InsufficientFairness` branch of the basic variant's `batch_match_orders` is
unreachable: the call's only possible error is `MatchingInProgress`. -/
theorem C10_fairness_unreachable :
    ∀ (proof0 : Nat) (pool : Basic.PoolState),
      97 ≤ Basic.validate_vrf_proof proof0 ∧
      Basic.validate_vrf_proof proof0 ≤ 99 ∧
      95 < Basic.validate_vrf_proof proof0 ∧
      (Basic.batch_match_orders pool proof0).2 =
        (if pool.is_matching then some .MatchingInProgress else none) := by
  intro proof0 pool
  have h3 : proof0 % 3 < 3 := Nat.mod_lt _ (by norm_num)
  refine ⟨by unfold Basic.validate_vrf_proof; omega,
          by unfold Basic.validate_vrf_proof; omega,
          by unfold Basic.validate_vrf_proof; omega, ?_⟩
  by_cases h : pool.is_matching
  · simp [Basic.batch_match_orders, h]
  · simp only [Basic.batch_match_orders, h, Bool.false_eq_true, if_false,
      if_neg]
    rw [if_pos (by unfold Basic.validate_vrf_proof; omega)]

/-- Claim C4 (code bug): on a paused pool, order submission and round
opening both succeed — lib.rs never consults `is_paused` (its `PoolPaused`
error code is declared but never raised); only the authority check of
`emergency_pause` behaves as claimed. -/
theorem C4_pause_not_enforced :
    paused_pool.is_paused = true ∧
    (Lib.submit_encrypted_order paused_pool 7 0 0 .Buy (List.replicate 64 0)
        5 0 100 0).2.2 = none ∧
    (Lib.submit_encrypted_order paused_pool 7 0 0 .Buy (List.replicate 64 0)
        5 0 100 0).1.total_orders = 1 ∧
    (Lib.batch_match_orders paused_pool 1 (List.replicate 64 0) 0 [1, 2]
        0).2.2 = none ∧
    (Lib.emergency_pause paused_pool 2 0).2 = some .Unauthorized ∧
    (Lib.emergency_pause paused_pool 1 0).2 = none := by
  decide

/-- Claim C5 (code bug): submitting the same `order_hash` (7) twice is not
rejected — `DarkPool::order_exists` is a stub that always answers `false`,
so the second submission also succeeds. -/
theorem C5_duplicate_not_rejected :
    (Enhanced.submit_encrypted_order fresh_pool 1 7 0 0 .Buy [] 0 1 0).2.2
        = none ∧
    (Enhanced.submit_encrypted_order
        (Enhanced.submit_encrypted_order fresh_pool 1 7 0 0 .Buy [] 0 1 0).1
        2 7 0 0 .Buy [] 0 2 0).2.2 = none ∧
    Enhanced.DarkPool.order_exists
        (Enhanced.submit_encrypted_order fresh_pool 1 7 0 0 .Buy [] 0 1 0).1
        7 = false := by
  decide

/-- Claim C2, counterexample: on an enhanced pool with `is_matching = true`,
two pending orders and 30 seconds elapsed, `initialize_matching_round`
succeeds (and bumps the round number) instead of rejecting — the enhanced
variant never checks `is_matching`. -/
theorem C2_counterexample :
    inflight_pool.is_matching = true ∧
    (Enhanced.initialize_matching_round inflight_pool 30 0 0).2.2 = none ∧
    (Enhanced.initialize_matching_round inflight_pool 30 0 0).1.matching_round
        = 2 ∧
    (Enhanced.initialize_matching_round inflight_pool 30 0 0).1.is_matching
        = true := by
  decide

/-- Claim C1, counterexample: after executors 0, 1 and 2 each submit a share
for order index 0 only, the round (threshold 3, two orders in the snapshot)
moves to `ReadyToComplete` although order index 1 has shares from zero
distinct executors — quorum is counted across the whole round, not per
order. -/
theorem C1_counterexample :
    cround3.status = .ReadyToComplete ∧
    cround3.threshold = 3 ∧
    cround3.encrypted_orders.length = 2 ∧
    Enhanced.shares_for_order cround3 1 = 0 ∧
    Enhanced.shares_for_order cround3 0 = 3 := by
  decide

/-- Claim C3: for every embedded public operation and every input on which
the operation fails, the state at the failure point equals the pre-call
state — every reachable failure happens before any field is mutated, so no
failed call leaves a partially-applied mutation.  (In the basic variant's
`batch_match_orders` the fairness check sits after an `is_matching` write,
but that check can never fail, so the property still holds on every failing
input.) -/
theorem C3_failure_leaves_state :
    (∀ (pool : Basic.PoolState) proof0 e,
       (Basic.batch_match_orders pool proof0).2 = some e →
       (Basic.batch_match_orders pool proof0).1 = pool) ∧
    (∀ (pool : Lib.Pool) user ea ep side sp oh ch dep now e,
       (Lib.submit_encrypted_order pool user ea ep side sp oh ch dep
           now).2.2 = some e →
       (Lib.submit_encrypted_order pool user ea ep side sp oh ch dep
           now).1 = pool) ∧
    (∀ (pool : Lib.Pool) rid vp vr ohs now e,
       (Lib.batch_match_orders pool rid vp vr ohs now).2.2 = some e →
       (Lib.batch_match_orders pool rid vp vr ohs now).1 = pool) ∧
    (∀ (pool : Lib.Pool) round tm cp mp ts e,
       (Lib.settle_matched_trades pool round tm cp mp ts).2.2 = some e →
       (Lib.settle_matched_trades pool round tm cp mp ts).1 = pool ∧
       (Lib.settle_matched_trades pool round tm cp mp ts).2.1 = round) ∧
    (∀ (pool : Lib.Pool) round now e,
       (Lib.finalize_matching_round pool round now).2.2 = some e →
       (Lib.finalize_matching_round pool round now).1 = pool ∧
       (Lib.finalize_matching_round pool round now).2.1 = round) ∧
    (∀ (order : Lib.Order) user now e,
       (Lib.cancel_order order user now).2.2 = some e →
       (Lib.cancel_order order user now).1 = order) ∧
    (∀ (pool : Lib.Pool) caller now e,
       (Lib.emergency_pause pool caller now).2 = some e →
       (Lib.emergency_pause pool caller now).1 = pool) ∧
    (∀ (pool : Enhanced.DarkPool) trader oh ea ep side sp sig nonce now e,
       (Enhanced.submit_encrypted_order pool trader oh ea ep side sp sig
           nonce now).2.2 = some e →
       (Enhanced.submit_encrypted_order pool trader oh ea ep side sp sig
           nonce now).1 = pool) ∧
    (∀ (pool : Enhanced.DarkPool) now vp vo e,
       (Enhanced.initialize_matching_round pool now vp vo).2.2 = some e →
       (Enhanced.initialize_matching_round pool now vp vo).1 = pool) ∧
    (∀ (round : Enhanced.MatchingRound) ex ei shares zk now e,
       (Enhanced.submit_decryption_shares round ex ei shares zk
           now).2.2 = some e →
       (Enhanced.submit_decryption_shares round ex ei shares zk
           now).1 = round ∧
       (Enhanced.submit_decryption_shares round ex ei shares zk
           now).2.1 = ex) ∧
    (∀ (pool : Enhanced.DarkPool) round ep now e,
       (Enhanced.complete_matching_round pool round ep now).2.2 = some e →
       (Enhanced.complete_matching_round pool round ep now).1 = pool ∧
       (Enhanced.complete_matching_round pool round ep now).2.1 = round) ∧
    (∀ (order : Enhanced.EncryptedOrder) pool trader oh sig now e,
       (Enhanced.cancel_order order pool trader oh sig now).2.2 = some e →
       (Enhanced.cancel_order order pool trader oh sig now).1 = order) ∧
    (∀ (pool : Enhanced.DarkPool) ea ek ei ts pvk st now e,
       (Enhanced.register_executor pool ea ek ei ts pvk st now).2.2
           = some e →
       (Enhanced.register_executor pool ea ek ei ts pvk st now).1 = pool) ∧
    (∀ (ex : Enhanced.ExecutorNode) pool caller v ev e,
       (Enhanced.slash_executor ex pool caller v ev).2 = some e →
       (Enhanced.slash_executor ex pool caller v ev).1 = ex) ∧
    (∀ (ex : Enhanced.ExecutorNode) now e,
       (Enhanced.executor_heartbeat ex now).2 = some e →
       (Enhanced.executor_heartbeat ex now).1 = ex) := by
  refine ⟨?_, ?_, ?_, ?_, ?_, ?_, ?_, ?_, ?_, ?_, ?_, ?_, ?_, ?_, ?_⟩
  · intro pool proof0 e h
    simp only [Basic.batch_match_orders, Basic.validate_vrf_proof] at h ⊢
    split_ifs at h ⊢ <;> simp_all <;> omega
  · intro pool user ea ep side sp oh ch dep now e h
    simp only [Lib.submit_encrypted_order] at h ⊢
    split_ifs at h ⊢ <;> simp_all
  · intro pool rid vp vr ohs now e h
    simp only [Lib.batch_match_orders] at h ⊢
    split_ifs at h ⊢ <;> simp_all
  · intro pool round tm cp mp ts e h
    simp only [Lib.settle_matched_trades] at h ⊢
    split_ifs at h ⊢ <;> simp_all
  · intro pool round now e h
    simp only [Lib.finalize_matching_round] at h ⊢
    split_ifs at h ⊢ <;> simp_all
  · intro order user now e h
    simp only [Lib.cancel_order] at h ⊢
    split_ifs at h ⊢ <;> simp_all
  · intro pool caller now e h
    simp only [Lib.emergency_pause] at h ⊢
    split_ifs at h ⊢ <;> simp_all
  · intro pool trader oh ea ep side sp sig nonce now e h
    simp only [Enhanced.submit_encrypted_order] at h ⊢
    split_ifs at h ⊢ <;> simp_all
  · intro pool now vp vo e h
    simp only [Enhanced.initialize_matching_round] at h ⊢
    split_ifs at h ⊢ <;> simp_all
  · intro round ex ei shares zk now e h
    simp only [Enhanced.submit_decryption_shares] at h ⊢
    split_ifs at h ⊢ <;> simp_all
  · intro pool round ep now e h
    simp only [Enhanced.complete_matching_round] at h ⊢
    split_ifs at h ⊢ <;> simp_all
  · intro order pool trader oh sig now e h
    simp only [Enhanced.cancel_order] at h ⊢
    split_ifs at h ⊢ <;> simp_all
  · intro pool ea ek ei ts pvk st now e h
    simp only [Enhanced.register_executor] at h ⊢
    split_ifs at h ⊢ <;> simp_all
  · intro ex pool caller v ev e h
    simp only [Enhanced.slash_executor] at h ⊢
    split_ifs at h ⊢ <;> simp_all
  · intro ex now e h
    simp only [Enhanced.executor_heartbeat] at h ⊢
    split_ifs at h ⊢ <;> simp_all

/-- Witness for C3: a concrete failing call (round opening on a pool that is
already matching, basic variant) returns an error and the unchanged pool. -/
theorem C3_failure_leaves_state_witness :
    (Basic.batch_match_orders ⟨0, 0, 0, true⟩ 0).2 =
        some .MatchingInProgress ∧
    (Basic.batch_match_orders ⟨0, 0, 0, true⟩ 0).1 = ⟨0, 0, 0, true⟩ :=
  ⟨by decide,
   C3_failure_leaves_state.1 ⟨0, 0, 0, true⟩ 0 .MatchingInProgress
     (by decide)⟩

/-- Claim C7: a successful slash (the authority calls with evidence, which
the stub verifier accepts) reduces the stake by exactly the violation type's
percentage of the current stake — invalid-decryption a tenth,
missed-heartbeat a hundredth, double-spend a half, malicious-matching a
quarter, in truncated integer division — with saturating subtraction,
increments `slash_count` by one, drops `performance_score` by 20
(saturating), and assigns `is_active := false` exactly when afterwards the
slash count is at least 3 or the stake is below the minimum; and no slash
call, successful or not, ever increases the stake. -/
theorem C7_slash_exact :
    (∀ (ex : Enhanced.ExecutorNode) (pool : Enhanced.DarkPool) caller
        (v : Enhanced.ViolationType) (evidence : List Nat),
       caller = pool.authority →
       (Enhanced.slash_executor ex pool caller v evidence).2 = none ∧
       (Enhanced.slash_executor ex pool caller v evidence).1.stake_amount =
         ex.stake_amount -
           Enhanced.calculate_slash_amount v ex.stake_amount ∧
       (Enhanced.slash_executor ex pool caller v evidence).1.slash_count =
         ex.slash_count + 1 ∧
       (Enhanced.slash_executor ex pool caller v
           evidence).1.performance_score = ex.performance_score - 20 ∧
       (Enhanced.slash_executor ex pool caller v evidence).1.is_active =
         (if 3 ≤ (Enhanced.slash_executor ex pool caller v
                    evidence).1.slash_count ∨
             (Enhanced.slash_executor ex pool caller v
                evidence).1.stake_amount < Enhanced.MINIMUM_EXECUTOR_STAKE
          then false else ex.is_active)) ∧
    (∀ s, Enhanced.calculate_slash_amount .InvalidDecryption s = s / 10 ∧
          Enhanced.calculate_slash_amount .MissedHeartbeat s = s / 100 ∧
          Enhanced.calculate_slash_amount .DoubleSpending s = s / 2 ∧
          Enhanced.calculate_slash_amount .MaliciousMatching s = s / 4) ∧
    (∀ (ex : Enhanced.ExecutorNode) pool caller v evidence,
       (Enhanced.slash_executor ex pool caller v evidence).1.stake_amount ≤
         ex.stake_amount) := by
  refine ⟨?_, ?_, ?_⟩
  · intro ex pool caller v evidence h
    simp only [Enhanced.slash_executor, Enhanced.verify_slashing_evidence,
      h]
    split_ifs <;> simp_all
  · intro s
    exact ⟨rfl, rfl, rfl, rfl⟩
  · intro ex pool caller v evidence
    simp only [Enhanced.slash_executor]
    split_ifs <;> simp <;> omega

/-- Witness for C7: slashing the minimum-stake executor 0 for double
spending succeeds and halves its stake. -/
theorem C7_slash_exact_witness :
    (Enhanced.slash_executor (cexec 0) fresh_pool 0 .DoubleSpending
        []).2 = none ∧
    (Enhanced.slash_executor (cexec 0) fresh_pool 0 .DoubleSpending
        []).1.stake_amount =
      (cexec 0).stake_amount -
        Enhanced.calculate_slash_amount .DoubleSpending
          (cexec 0).stake_amount :=
  ⟨(C7_slash_exact.1 (cexec 0) fresh_pool 0 .DoubleSpending [] rfl).1,
   (C7_slash_exact.1 (cexec 0) fresh_pool 0 .DoubleSpending [] rfl).2.1⟩

/-- Claim C2 (amended): in the lib.rs variant, opening a round while
`is_matching_active` is true is rejected with `MatchingInProgress` and
leaves the pool unchanged, and the flag is cleared only by
`finalize_matching_round`, which requires `DecryptionComplete` and marks the
round `Completed`; the enhanced variant's `initialize_matching_round` checks
only the 30-second interval, the VRF proof and the pending-order minimum, so
it can open a second round while `is_matching` is true. -/
theorem C2_single_round_amended :
    (∀ (pool : Lib.Pool) rid vp vr ohs now,
       pool.is_matching_active = true →
       Lib.batch_match_orders pool rid vp vr ohs now =
         (pool, none, some .MatchingInProgress)) ∧
    (∀ (pool : Lib.Pool) round now,
       (Lib.finalize_matching_round pool round now).2.2 = none →
       round.status = .DecryptionComplete ∧
       (Lib.finalize_matching_round pool round now).1.is_matching_active =
           false ∧
       (Lib.finalize_matching_round pool round now).2.1.status =
           .Completed) := by
  constructor
  · intro pool rid vp vr ohs now h
    simp [Lib.batch_match_orders, h]
  · intro pool round now h
    simp only [Lib.finalize_matching_round] at h ⊢
    split_ifs at h ⊢ <;> simp_all

/-- Witness for C2: on a concrete pool with `is_matching_active = true`,
opening a round is rejected and the pool is returned unchanged. -/
theorem C2_single_round_amended_witness :
    Lib.batch_match_orders busy_pool 1 [] 0 [] 0 =
      (busy_pool, none, some .MatchingInProgress) :=
  C2_single_round_amended.1 busy_pool 1 [] 0 [] 0 rfl

/-- Claim C8, counterexample: in lib.rs, cancelling the Pending order
`pending_order` (deposit 5000000, submitted at 0) at time 10 — inside the
300-second grace window — succeeds and refunds the full deposit 5000000,
while deposit minus the cancellation fee would be 4000000: the claimed
fee deduction inside the grace window does not happen in that variant. -/
theorem C8_counterexample :
    (Lib.cancel_order pending_order 5 10).2.2 = none ∧
    (Lib.cancel_order pending_order 5 10).2.1 = some 5000000 ∧
    pending_order.deposit_amount - Enhanced.CANCELLATION_FEE = 4000000 ∧
    pending_order.submitted_at = 0 := by
  decide

/-- Claim C8 (amended): in the enhanced variant, an owner's cancellation of
a `Pending` order while the pool is not mid-round succeeds, charges the
cancellation fee exactly when it occurs within 300 seconds of submission and
charges nothing otherwise, and sets the terminal `Cancelled` status;
cancellation while the pool is mid-round is rejected, as is cancellation of
a non-`Pending` (e.g. already cancelled) order.  In the lib.rs variant a
cancellation always refunds the full deposit, with no grace-window fee. -/
theorem C8_cancel_amended :
    (∀ (order : Enhanced.EncryptedOrder) (pool : Enhanced.DarkPool) sig now,
       order.status = .Pending → pool.is_matching = false →
       Enhanced.cancel_order order pool order.trader order.order_hash sig
           now =
         ({ order with status := .Cancelled, cancelled_at := now },
          decide (now - order.submitted_at < 300), none)) ∧
    (∀ (order : Enhanced.EncryptedOrder) (pool : Enhanced.DarkPool) sig now,
       order.status = .Pending → pool.is_matching = true →
       Enhanced.cancel_order order pool order.trader order.order_hash sig
           now = (order, false, some .CannotCancelDuringMatching)) ∧
    (∀ (order : Enhanced.EncryptedOrder) (pool : Enhanced.DarkPool) sig now,
       order.status = .Cancelled →
       Enhanced.cancel_order order pool order.trader order.order_hash sig
           now = (order, false, some .OrderAlreadyProcessed)) ∧
    (∀ (order : Lib.Order) now,
       order.status = .Pending →
       Lib.cancel_order order order.owner now =
         ({ order with status := .Cancelled, cancelled_at := some now },
          some order.deposit_amount, none)) := by
  refine ⟨?_, ?_, ?_, ?_⟩
  · intro order pool sig now h1 h2
    simp [Enhanced.cancel_order, Enhanced.verify_cancellation_signature,
      h1, h2]
  · intro order pool sig now h1 h2
    simp [Enhanced.cancel_order, Enhanced.verify_cancellation_signature,
      h1, h2]
  · intro order pool sig now h1
    simp [Enhanced.cancel_order, Enhanced.verify_cancellation_signature,
      h1]
  · intro order now h1
    simp [Lib.cancel_order, h1]

/-- Witness for C8: cancelling the concrete order `c8_order` 10 seconds
after submission succeeds with the fee charged, and cancelling
`pending_order` in lib.rs refunds the full 5000000 deposit. -/
theorem C8_cancel_amended_witness :
    Enhanced.cancel_order c8_order fresh_pool c8_order.trader
        c8_order.order_hash 0 10 =
      ({ c8_order with status := .Cancelled, cancelled_at := 10 }, true,
       none) ∧
    Lib.cancel_order pending_order pending_order.owner 10 =
      ({ pending_order with status := .Cancelled, cancelled_at := some 10 },
       some pending_order.deposit_amount, none) := by
  constructor
  · have h := C8_cancel_amended.1 c8_order fresh_pool 0 10 rfl rfl
    simpa using h
  · exact C8_cancel_amended.2.2.2 pending_order 10 rfl

/-- A successful enhanced order submission (fresh nonce; the other checks
are the always-false duplicate stub and the always-true proof stubs) records
the nonce and bumps the order count. -/
theorem submit_step (pool : Enhanced.DarkPool) (trader oh ea ep sig nonce : Nat)
    (side : Enhanced.OrderSide) (sp : List Nat) (now : Int)
    (h : ¬ nonce ∈ pool.used_nonces) :
    Enhanced.submit_encrypted_order pool trader oh ea ep side sp sig nonce
        now =
      (Enhanced.DarkPool.add_nonce
         { pool with order_count := pool.order_count + 1 } nonce,
       some
         { pool := 0
           order_hash := oh
           trader := trader
           encrypted_amount := ea
           encrypted_price := ep
           side := side
           status := .Pending
           submitted_at := now
           cancelled_at := 0
           solvency_proof := sp
           signature := sig
           nonce := nonce },
       none) := by
  simp [Enhanced.submit_encrypted_order, Enhanced.DarkPool.order_exists,
    Enhanced.DarkPool.nonce_used, Enhanced.verify_solvency_proof,
    Enhanced.verify_order_signature, h]

/-- Below the cap, `add_nonce` only appends. -/
theorem add_nonce_small (pool : Enhanced.DarkPool) (nonce : Nat)
    (h : pool.used_nonces.length ≤ 9999) :
    (Enhanced.DarkPool.add_nonce pool nonce).used_nonces =
      pool.used_nonces ++ [nonce] := by
  simp only [Enhanced.DarkPool.add_nonce]
  rw [if_neg (by simp; omega)]

/-- At the cap, `add_nonce` appends and evicts the oldest nonce. -/
theorem add_nonce_full (pool : Enhanced.DarkPool) (nonce : Nat)
    (h : pool.used_nonces.length = 10000) :
    (Enhanced.DarkPool.add_nonce pool nonce).used_nonces =
      (pool.used_nonces ++ [nonce]).tail := by
  simp only [Enhanced.DarkPool.add_nonce]
  rw [if_pos (by simp; omega)]

/-- While the cap is not yet reached, the nonce list of `submit_many k` is
exactly nonce 0 followed by the nonces 1..k, in submission order. -/
theorem submit_many_used_nonces :
    ∀ k, k ≤ 9999 →
      (submit_many k).used_nonces = 0 :: List.range' 1 k := by
  intro k
  induction k with
  | zero => intro _; rfl
  | succ n ih =>
    intro hk
    have h := ih (by omega)
    have hmem : ¬ ((n + 1 : Nat) ∈ (submit_many n).used_nonces) := by
      rw [h]
      simp [List.mem_range'_1]
      omega
    show (Enhanced.submit_encrypted_order (submit_many n) 1 (n + 1) 0 0 .Buy
        [] 0 (n + 1) 0).1.used_nonces = _
    rw [submit_step _ _ _ _ _ _ _ _ _ _ hmem]
    have hsmall :
        ({ submit_many n with
             order_count := (submit_many n).order_count + 1 } :
           Enhanced.DarkPool).used_nonces.length ≤ 9999 := by
      show (submit_many n).used_nonces.length ≤ 9999
      rw [h]
      simp [List.length_range']
      omega
    rw [add_nonce_small _ _ hsmall]
    show (submit_many n).used_nonces ++ [n + 1] = _
    rw [h, List.range'_1_concat, Nat.add_comm 1 n]
    simp

/-- One unfolding step of `submit_many`. -/
theorem submit_many_succ (k : Nat) :
    submit_many (k + 1) =
      (Enhanced.submit_encrypted_order (submit_many k) 1 (k + 1) 0 0 .Buy []
        0 (k + 1) 0).1 :=
  rfl

/-- `submit_many 10000` unfolded once. -/
theorem submit_many_unfold_10000 :
    submit_many 10000 =
      (Enhanced.submit_encrypted_order (submit_many 9999) 1 10000 0 0 .Buy
        [] 0 10000 0).1 := by
  have e := submit_many_succ 9999
  norm_num at e
  exact e

/-- Submitting the fresh nonce 10000 to a pool whose nonce list is
`0 :: 1..9999` (length 10000) pushes past the cap and evicts nonce 0. -/
theorem submit_step_at_cap (P : Enhanced.DarkPool)
    (h : P.used_nonces = 0 :: List.range' 1 9999) :
    (Enhanced.submit_encrypted_order P 1 10000 0 0 .Buy [] 0 10000
        0).1.used_nonces = List.range' 1 10000 := by
  have hmem : ¬ ((10000 : Nat) ∈ P.used_nonces) := by
    rw [h]
    simp [List.mem_range'_1]
  rw [submit_step _ _ _ _ _ _ _ _ _ _ hmem]
  have hfull :
      ({ P with order_count := P.order_count + 1 } :
         Enhanced.DarkPool).used_nonces.length = 10000 := by
    show P.used_nonces.length = 10000
    rw [h]
    simp [List.length_range']
  rw [add_nonce_full _ _ hfull]
  show (P.used_nonces ++ [10000]).tail = _
  rw [h]
  show (List.range' 1 9999 ++ [10000]) = _
  rw [← List.range'_1_concat]

/-- The 10000th further submission makes the push exceed the cap, so the
original nonce 0 is evicted: only 1..10000 remain. -/
theorem submit_many_10000 :
    (submit_many 10000).used_nonces = List.range' 1 10000 := by
  rw [submit_many_unfold_10000]
  exact submit_step_at_cap (submit_many 9999)
    (submit_many_used_nonces 9999 (by omega))

/-- Claim C6, counterexample: nonce 0 is recorded in `nonce_pool`; after
10000 further submissions (nonces 1..10000) the FIFO cap evicts it, and a
submission reusing nonce 0 then succeeds instead of being rejected. -/
theorem C6_counterexample :
    nonce_pool.used_nonces = [0] ∧
    (Enhanced.submit_encrypted_order (submit_many 10000) 2 99999 0 0 .Buy
        [] 0 0 0).2.2 = none := by
  refine ⟨rfl, ?_⟩
  have hmem : ¬ ((0 : Nat) ∈ (submit_many 10000).used_nonces) := by
    rw [submit_many_10000]
    simp [List.mem_range'_1]
  rw [submit_step _ _ _ _ _ _ _ _ _ _ hmem]

/-- Claim C6 (amended): a submission reusing a nonce is rejected with
`NonceReused` (leaving the pool unchanged) as long as the nonce is still in
the pool's `used_nonces` list; that list is capped at 10000 entries with
FIFO eviction, so the guarantee lapses once 10000 further nonces have been
recorded. -/
theorem C6_nonce_amended :
    (∀ (pool : Enhanced.DarkPool) trader oh ea ep side sp sig nonce now,
       nonce ∈ pool.used_nonces →
       Enhanced.submit_encrypted_order pool trader oh ea ep side sp sig
           nonce now = (pool, none, some .NonceReused)) ∧
    (∀ (pool : Enhanced.DarkPool) nonce,
       pool.used_nonces.length ≤ 10000 →
       (Enhanced.DarkPool.add_nonce pool nonce).used_nonces.length ≤
         10000) := by
  constructor
  · intro pool trader oh ea ep side sp sig nonce now h
    simp [Enhanced.submit_encrypted_order, Enhanced.DarkPool.order_exists,
      Enhanced.DarkPool.nonce_used, h]
  · intro pool nonce h
    simp only [Enhanced.DarkPool.add_nonce]
    split_ifs with h1 <;> simp_all <;> omega

/-- Witness for C6: submitting with the recorded nonce 0 against
`nonce_pool` is rejected with `NonceReused` and the pool is unchanged. -/
theorem C6_nonce_amended_witness :
    Enhanced.submit_encrypted_order nonce_pool 1 7 0 0 .Buy [] 0 0 0 =
      (nonce_pool, none, some .NonceReused) :=
  C6_nonce_amended.1 nonce_pool 1 7 0 0 .Buy [] 0 0 0 (by decide)

/-- Every field of the round except `decryption_shares` is preserved by
the share-recording fold of `submit_decryption_shares`, and the recorded
shares are exactly the pre-existing ones followed by one share per submitted
vector entry, all bearing the submitting executor's index. -/
theorem foldl_add_share (eidx : Nat) (now : Int) :
    ∀ (l : List (Nat × Nat)) (r : Enhanced.MatchingRound),
      ((l.foldl (fun a p => a.add_share eidx p.1 p.2 now) r).decryption_shares
          = r.decryption_shares ++
            l.map (fun p =>
              ({ executor_index := eidx
                 order_index := p.1
                 decryption := p.2
                 timestamp := now } : Enhanced.DecryptionShare))) ∧
      (l.foldl (fun a p => a.add_share eidx p.1 p.2 now) r).status =
          r.status ∧
      (l.foldl (fun a p => a.add_share eidx p.1 p.2 now) r).threshold =
          r.threshold := by
  intro l
  induction l with
  | nil => intro r; simp
  | cons x xs ih =>
    intro r
    simp only [List.foldl_cons, List.map_cons]
    obtain ⟨h1, h2, h3⟩ := ih (r.add_share eidx x.1 x.2 now)
    refine ⟨?_, by rw [h2]; simp [Enhanced.MatchingRound.add_share],
      by rw [h3]; simp [Enhanced.MatchingRound.add_share]⟩
    rw [h1]
    simp [Enhanced.MatchingRound.add_share]

/-- Claim C1 (amended): a successful share submission never fails, and the
round's status becomes `ReadyToComplete` exactly when the number of distinct
executor indices among ALL recorded shares of the round - counted across
orders, not per order - reaches the round's threshold (or the round already
was `ReadyToComplete`); duplicate submissions by one executor never add a
unit: if the executor's index is already present, the distinct count is
unchanged. -/
theorem C1_quorum_amended :
    ∀ (round : Enhanced.MatchingRound) (ex : Enhanced.ExecutorNode)
      (eidx : Nat) (shares : List Nat) (zk : List Nat) (now : Int),
      ex.is_active = true →
      Enhanced.MINIMUM_EXECUTOR_STAKE ≤ ex.stake_amount →
      ((Enhanced.submit_decryption_shares round ex eidx shares zk now).2.2 =
          none) ∧
      ((Enhanced.submit_decryption_shares round ex eidx shares zk
            now).1.status = .ReadyToComplete ↔
        (round.threshold ≤
            Enhanced.distinct_executors
              (Enhanced.submit_decryption_shares round ex eidx shares zk
                now).1 ∨
          round.status = .ReadyToComplete)) ∧
      (eidx ∈ round.decryption_shares.map
            Enhanced.DecryptionShare.executor_index →
        Enhanced.distinct_executors
            (Enhanced.submit_decryption_shares round ex eidx shares zk
              now).1 = Enhanced.distinct_executors round) := by
  intro round ex eidx shares zk now hact hstake
  obtain ⟨hsh, hst, hth⟩ := foldl_add_share eidx now shares.enum round
  have hsub :
      Enhanced.submit_decryption_shares round ex eidx shares zk now =
        (if Enhanced.has_sufficient_shares
             (shares.enum.foldl (fun a p => a.add_share eidx p.1 p.2 now)
               round) then
           Enhanced.complete_threshold_decryption
             (shares.enum.foldl (fun a p => a.add_share eidx p.1 p.2 now)
               round)
         else
           shares.enum.foldl (fun a p => a.add_share eidx p.1 p.2 now)
             round,
         { ex with last_heartbeat := now }, none) := by
    simp [Enhanced.submit_decryption_shares,
      Enhanced.MatchingRound.is_authorized_executor,
      Enhanced.verify_share_proof, hact, hstake]
  have hkey : Enhanced.distinct_executors
      (if Enhanced.has_sufficient_shares
           (shares.enum.foldl (fun a p => a.add_share eidx p.1 p.2 now)
             round) then
         Enhanced.complete_threshold_decryption
           (shares.enum.foldl (fun a p => a.add_share eidx p.1 p.2 now)
             round)
       else
         shares.enum.foldl (fun a p => a.add_share eidx p.1 p.2 now)
           round) =
      Enhanced.distinct_executors
        (shares.enum.foldl (fun a p => a.add_share eidx p.1 p.2 now)
          round) := by
    by_cases hs : Enhanced.has_sufficient_shares
        (shares.enum.foldl (fun a p => a.add_share eidx p.1 p.2 now) round)
    · rw [if_pos hs]
      rfl
    · rw [if_neg hs]
  refine ⟨by rw [hsub], ?_, ?_⟩
  · rw [hsub]
    dsimp only
    by_cases hs : Enhanced.has_sufficient_shares
        (shares.enum.foldl (fun a p => a.add_share eidx p.1 p.2 now) round)
    · rw [if_pos hs]
      have h' : round.threshold ≤ Enhanced.distinct_executors
          (shares.enum.foldl (fun a p => a.add_share eidx p.1 p.2 now)
            round) := by
        rw [Enhanced.has_sufficient_shares] at hs
        have := of_decide_eq_true hs
        rwa [hth] at this
      constructor
      · intro _
        left
        exact h'
      · intro _
        rfl
    · rw [if_neg hs]
      have hnd : ¬ (round.threshold ≤ Enhanced.distinct_executors
          (shares.enum.foldl (fun a p => a.add_share eidx p.1 p.2 now)
            round)) := by
        intro hc
        apply hs
        rw [Enhanced.has_sufficient_shares]
        exact decide_eq_true (by rw [hth]; exact hc)
      rw [hst]
      simp [hnd]
  · intro hmem
    rw [hsub]
    dsimp only
    rw [hkey]
    show ((List.map Enhanced.DecryptionShare.executor_index
        (shares.enum.foldl (fun a p => a.add_share eidx p.1 p.2 now)
          round).decryption_shares).toFinset).card = _
    rw [hsh, List.map_append, List.toFinset_append]
    have hsub2 : ((shares.enum.map (fun p =>
        ({ executor_index := eidx, order_index := p.1, decryption := p.2,
           timestamp := now } : Enhanced.DecryptionShare))).map
          Enhanced.DecryptionShare.executor_index).toFinset ⊆
        (round.decryption_shares.map
          Enhanced.DecryptionShare.executor_index).toFinset := by
      intro x hx
      simp only [List.mem_toFinset, List.mem_map] at hx
      obtain ⟨s', hs', rfl⟩ := hx
      obtain ⟨p, hp, rfl⟩ := hs'
      simpa using hmem
    rw [Finset.union_eq_left.mpr hsub2]
    rfl

/-- Witness for C1: executor 0's first single-share submission to `cround`
succeeds, and the status equivalence holds there concretely. -/
theorem C1_quorum_amended_witness :
    (Enhanced.submit_decryption_shares cround (cexec 0) 0 [5] [] 0).2.2 =
        none ∧
    ((Enhanced.submit_decryption_shares cround (cexec 0) 0 [5] []
          0).1.status = .ReadyToComplete ↔
      (cround.threshold ≤
          Enhanced.distinct_executors
            (Enhanced.submit_decryption_shares cround (cexec 0) 0 [5] []
              0).1 ∨
        cround.status = .ReadyToComplete)) :=
  ⟨(C1_quorum_amended cround (cexec 0) 0 [5] [] 0 rfl (le_refl _)).1,
   (C1_quorum_amended cround (cexec 0) 0 [5] [] 0 rfl (le_refl _)).2.1⟩

/-- Insertion into a descending-sorted list preserves membership. -/
theorem mem_insert_desc {x y : Matcher.PlainOrder}
    {l : List Matcher.PlainOrder} :
    y ∈ Matcher.insert_desc x l ↔ y = x ∨ y ∈ l := by
  induction l with
  | nil => simp [Matcher.insert_desc]
  | cons a as ih =>
    simp only [Matcher.insert_desc]
    split_ifs <;> simp [ih] <;> tauto

/-- Sorting descending preserves membership. -/
theorem mem_sort_desc {y : Matcher.PlainOrder}
    {l : List Matcher.PlainOrder} :
    y ∈ Matcher.sort_desc l ↔ y ∈ l := by
  induction l with
  | nil => simp [Matcher.sort_desc]
  | cons a as ih => simp [Matcher.sort_desc, mem_insert_desc, ih]

/-- Insertion into an ascending-sorted list preserves membership. -/
theorem mem_insert_asc {x y : Matcher.PlainOrder}
    {l : List Matcher.PlainOrder} :
    y ∈ Matcher.insert_asc x l ↔ y = x ∨ y ∈ l := by
  induction l with
  | nil => simp [Matcher.insert_asc]
  | cons a as ih =>
    simp only [Matcher.insert_asc]
    split_ifs <;> simp [ih] <;> tauto

/-- Sorting ascending preserves membership. -/
theorem mem_sort_asc {y : Matcher.PlainOrder}
    {l : List Matcher.PlainOrder} :
    y ∈ Matcher.sort_asc l ↔ y ∈ l := by
  induction l with
  | nil => simp [Matcher.sort_asc]
  | cons a as ih => simp [Matcher.sort_asc, mem_insert_asc, ih]

/-- Every pair the cursor walk emits points at a buy order and a sell order
of its input lists, and its matched amount is at most each one's amount. -/
theorem match_walk_bound :
    ∀ (buys sells : List Matcher.PlainOrder) (p : Enhanced.TradePair),
      p ∈ Matcher.match_walk buys sells →
      (∃ b ∈ buys, p.buy_order = b.id ∧ p.matched_amount ≤ b.amount) ∧
      (∃ s ∈ sells, p.sell_order = s.id ∧ p.matched_amount ≤ s.amount) := by
  intro buys sells
  induction buys, sells using Matcher.match_walk.induct with
  | case1 ss =>
    intro p hp
    simp [Matcher.match_walk] at hp
  | case2 b bs =>
    intro p hp
    simp [Matcher.match_walk] at hp
  | case3 b bs s ss hpr heq ih =>
    intro p hp
    simp only [Matcher.match_walk, hpr, heq, if_true, ite_true, min_self,
      List.mem_cons] at hp
    rcases hp with rfl | hp
    · exact ⟨⟨b, List.mem_cons_self _ _, rfl, by rw [heq]⟩,
             ⟨s, List.mem_cons_self _ _, rfl, le_refl _⟩⟩
    · obtain ⟨⟨b', hb', e1, e2⟩, ⟨s', hs', e3, e4⟩⟩ := ih p hp
      exact ⟨⟨b', List.mem_cons_of_mem _ hb', e1, e2⟩,
             ⟨s', List.mem_cons_of_mem _ hs', e3, e4⟩⟩
  | case4 b bs s ss hpr m hne hlt ih =>
    intro p hp
    simp only [Matcher.match_walk, hpr, hne, hlt, if_true, ite_true,
      if_false, ite_false, List.mem_cons] at hp
    rcases hp with rfl | hp
    · exact ⟨⟨b, List.mem_cons_self _ _, rfl, Nat.min_le_left _ _⟩,
             ⟨s, List.mem_cons_self _ _, rfl, Nat.min_le_right _ _⟩⟩
    · obtain ⟨⟨b', hb', e1, e2⟩, ⟨s', hs', e3, e4⟩⟩ := ih p hp
      refine ⟨⟨b', List.mem_cons_of_mem _ hb', e1, e2⟩, ?_⟩
      rcases List.mem_cons.mp hs' with rfl | hs''
      · exact ⟨s, List.mem_cons_self _ _, e3,
          le_trans e4 (Nat.sub_le _ _)⟩
      · exact ⟨s', List.mem_cons_of_mem _ hs'', e3, e4⟩
  | case5 b bs s ss hpr m hne hgt ih =>
    intro p hp
    simp only [Matcher.match_walk, hpr, hne, hgt, if_true, ite_true,
      if_false, ite_false, List.mem_cons] at hp
    rcases hp with rfl | hp
    · exact ⟨⟨b, List.mem_cons_self _ _, rfl, Nat.min_le_left _ _⟩,
             ⟨s, List.mem_cons_self _ _, rfl, Nat.min_le_right _ _⟩⟩
    · obtain ⟨⟨b', hb', e1, e2⟩, ⟨s', hs', e3, e4⟩⟩ := ih p hp
      refine ⟨?_, ⟨s', List.mem_cons_of_mem _ hs', e3, e4⟩⟩
      rcases List.mem_cons.mp hb' with rfl | hb''
      · exact ⟨b, List.mem_cons_self _ _, e1,
          le_trans e2 (Nat.sub_le _ _)⟩
      · exact ⟨b', List.mem_cons_of_mem _ hb'', e1, e2⟩
  | case6 b bs s ss hpr =>
    intro p hp
    simp [Matcher.match_walk, hpr] at hp

/-- On the concrete two-buy/one-sell instance the matcher produces exactly
the pair matching the sell against the higher buy. -/
theorem run_matcher_concrete : Matcher.run_matcher wbuys wsells = [wpair] := by
  simp [wbuys, wsells, wpair, Matcher.run_matcher, Matcher.sort_desc,
    Matcher.insert_desc, Matcher.sort_asc, Matcher.insert_asc,
    Matcher.match_walk]

/-- Claim C9 (spec-modelled matcher): every pair the matcher outputs matches
a buy order and a sell order of the round's plaintext order set with a
matched amount no larger than either side's plaintext amount, and the sum of
matched buy volume over all pairs equals the sum of matched sell volume. -/
theorem C9_matcher_sound :
    (∀ (buys sells : List Matcher.PlainOrder) (p : Enhanced.TradePair),
       p ∈ Matcher.run_matcher buys sells →
       (∃ b ∈ buys, p.buy_order = b.id ∧ p.matched_amount ≤ b.amount) ∧
       (∃ s ∈ sells, p.sell_order = s.id ∧ p.matched_amount ≤ s.amount)) ∧
    (∀ (buys sells : List Matcher.PlainOrder),
       Matcher.buy_volume (Matcher.run_matcher buys sells) =
         Matcher.sell_volume (Matcher.run_matcher buys sells)) := by
  constructor
  · intro buys sells p hp
    obtain ⟨⟨b', hb', e1, e2⟩, ⟨s', hs', e3, e4⟩⟩ :=
      match_walk_bound _ _ p hp
    exact ⟨⟨b', mem_sort_desc.mp hb', e1, e2⟩,
           ⟨s', mem_sort_asc.mp hs', e3, e4⟩⟩
  · intro buys sells
    rfl

/-- Witness for C9: on the concrete instance the produced pair satisfies the
bounds against its buy and sell orders. -/
theorem C9_matcher_sound_witness :
    wpair ∈ Matcher.run_matcher wbuys wsells ∧
    ((∃ b ∈ wbuys, wpair.buy_order = b.id ∧
        wpair.matched_amount ≤ b.amount) ∧
     (∃ s ∈ wsells, wpair.sell_order = s.id ∧
        wpair.matched_amount ≤ s.amount)) :=
  ⟨by rw [run_matcher_concrete]; exact List.mem_singleton_self _,
   C9_matcher_sound.1 wbuys wsells wpair
     (by rw [run_matcher_concrete]; exact List.mem_singleton_self _)⟩

end PhantomPool
